import Mathlib

set_option maxHeartbeats 1000000

/-! Shallow embedding of the page-selection and transformation engine of the
PDF chat bot: the parsing/validation helpers of src/utils/pdf_tools.py, the
structural transformations of class PDFProcessor, and the validation logic of
the delete/reorder/merge handlers. -/

/-- The whitespace characters removed by Python str.strip (and by int() on
strings): space, tab, newline, carriage return, vertical tab, form feed. -/
def isPyWs (c : Char) : Bool :=
  c == ' ' || c == '\t' || c == '\n' || c == '\r' || c == '\x0b' || c == '\x0c'

/-- Python str.strip on a character list: drop whitespace from both ends. -/
def pyStripL (cs : List Char) : List Char :=
  ((cs.dropWhile isPyWs).reverse.dropWhile isPyWs).reverse

/-- Python str.strip on a string. -/
def pyStrip (s : String) : String := String.mk (pyStripL s.data)

/-- Python str.lower (ASCII case folding suffices for the inputs modelled). -/
def pyLower (s : String) : String := String.mk (s.data.map Char.toLower)

/-- Python s.split(sep) for a single-character separator, over character
lists; the accumulator carries the current field reversed. -/
def pySplitAux (sep : Char) : List Char → List Char → List (List Char)
  | [], acc => [acc.reverse]
  | c :: rest, acc =>
      if c = sep then acc.reverse :: pySplitAux sep rest []
      else pySplitAux sep rest (c :: acc)

/-- Python s.split(sep) for a single-character separator. -/
def pySplit (sep : Char) (cs : List Char) : List (List Char) :=
  pySplitAux sep cs []

/-- Digits of a Python integer literal after its first digit: a single
grouping underscore may appear between two digits, nowhere else. -/
def pyDigitsRest : List Char → Nat → Option Nat
  | [], acc => some acc
  | '_' :: c :: rest, acc =>
      if c.isDigit then pyDigitsRest rest (acc * 10 + (c.toNat - 48)) else none
  | ['_'], _ => none
  | c :: rest, acc =>
      if c.isDigit then pyDigitsRest rest (acc * 10 + (c.toNat - 48)) else none

/-- A nonempty digit sequence (with optional grouping underscores) and its
numeric value; none when the sequence is empty or malformed. -/
def pyDigits : List Char → Option Nat
  | c :: rest => if c.isDigit then pyDigitsRest rest (c.toNat - 48) else none
  | [] => none

/-- Python int(s) on a character list: surrounding whitespace is ignored, an
optional single sign precedes the digits; none models ValueError. -/
def pyInt (cs : List Char) : Option Int :=
  match pyStripL cs with
  | '+' :: rest => (pyDigits rest).map (fun n => (n : Int))
  | '-' :: rest => (pyDigits rest).map (fun n => -(n : Int))
  | rest => (pyDigits rest).map (fun n => (n : Int))

/-- Python part.split(sep, 1) for a character sep that occurs in part: the
text before the first occurrence and the text after it. -/
def splitFirst (sep : Char) (cs : List Char) : List Char × List Char :=
  (cs.takeWhile (fun c => c != sep), (cs.dropWhile (fun c => c != sep)).tail)

/-- Python range(a, b + 1) over integers, as a list. -/
def rangeIncl (a b : Int) : List Int :=
  (List.range (b + 1 - a).toNat).map (fun i : Nat => a + (i : Int))

/-- The list of 1-based page indices 1..n. -/
def oneTo (n : Nat) : List Int := (List.range n).map (fun i : Nat => (i : Int) + 1)

/-- The token loop of parse_page_numbers (src/utils/pdf_tools.py, lines
429-444): each comma-separated part is stripped; a part containing a dash is
split once and both sides parsed with int(), contributing the range when
start <= end, start >= 1 and end <= max_pages, and nothing otherwise; any
other part is parsed with int() and contributes itself when within bounds.
A ValueError from int() aborts the loop: the result is none, which the
enclosing try/except of parse_page_numbers turns into the empty list. -/
def collectTokens (maxPages : Nat) : List (List Char) → Option (List Int)
  | [] => some []
  | p :: rest =>
      if (pyStripL p).contains '-' then
        match pyInt (splitFirst '-' (pyStripL p)).1, pyInt (splitFirst '-' (pyStripL p)).2 with
        | some a, some b =>
            (collectTokens maxPages rest).map (fun tl =>
              (if a ≤ b ∧ 1 ≤ a ∧ b ≤ (maxPages : Int) then rangeIncl a b else []) ++ tl)
        | _, _ => none
      else
        match pyInt (pyStripL p) with
        | some v =>
            (collectTokens maxPages rest).map (fun tl =>
              (if 1 ≤ v ∧ v ≤ (maxPages : Int) then [v] else []) ++ tl)
        | none => none

/-- parse_page_numbers (src/utils/pdf_tools.py, lines 417-450): the keyword
expression whose lower().strip() is "all" expands to 1..max_pages; otherwise
the input is split on commas, the token loop collects the valid page numbers,
and the result is deduplicated and sorted ascending; a ValueError (none from
the token loop) yields the empty list. -/
def parse_page_numbers (pageInput : String) (maxPages : Nat) : List Int :=
  if pyStrip (pyLower pageInput) = "all" then
    oneTo maxPages
  else
    match collectTokens maxPages (pySplit ',' pageInput.data) with
    | some pages => List.insertionSort (· ≤ ·) pages.dedup
    | none => []

/-- validate_page_input (src/utils/pdf_tools.py, lines 452-462): empty
stripped input and empty parse results are invalid, everything else valid. -/
def validate_page_input (pageInput : String) (maxPages : Nat) : Bool × String :=
  if pyStrip pageInput = "" then
    (false, "Page input cannot be empty")
  else if parse_page_numbers pageInput maxPages = [] then
    (false, "Invalid page format. Use numbers (1,2,3) or ranges (1-5) between 1 and "
      ++ toString maxPages)
  else
    (true, "")

/-- A comma token on which the token loop raises ValueError: a dash token one
of whose halves fails int(), or a dashless token that fails int(). -/
def tokenBad (p : List Char) : Bool :=
  if (pyStripL p).contains '-' then
    (pyInt (splitFirst '-' (pyStripL p)).1).isNone ||
      (pyInt (splitFirst '-' (pyStripL p)).2).isNone
  else
    (pyInt (pyStripL p)).isNone

/-- The list comprehension of handle_reorder_input (src/handlers/reorder.py,
line 86): int(x.strip()) for every comma-separated token, none as soon as one
token raises ValueError. -/
def tokenInts (s : String) : Option (List Int) :=
  (pySplit ',' s.data).mapM (fun p => pyInt p)

/-- The reorder-specific parser of handle_reorder_input (src/handlers/
reorder.py, lines 77-103): the stripped message is split on commas and every
token parsed as a bare integer; the order is accepted only when the token
count equals the page count and the set of values equals set(range(1,
total_pages + 1)); none models the three reply-and-return error paths. -/
def parse_page_order (userInput : String) (totalPages : Nat) : Option (List Int) :=
  match tokenInts (pyStrip userInput) with
  | none => none
  | some newOrder =>
      if newOrder.length = totalPages ∧ newOrder.toFinset = (oneTo totalPages).toFinset then
        some newOrder
      else
        none

/-- delete_pages (src/utils/pdf_tools.py, lines 139-156): keep, in original
order, every page whose 1-based index is not in pages_to_delete. A document
is modelled as the list of its pages. -/
def delete_pages {α : Type} (doc : List α) (pagesToDelete : List Int) : List α :=
  (doc.enum.filter (fun ip => decide (((ip.1 : Int) + 1) ∉ pagesToDelete))).map Prod.snd

/-- The input validation of handle_delete_input (src/handlers/delete_pages.py,
lines 83-98): reject when validate_page_input fails, reject when the parsed
selection has at least total_pages entries, and otherwise hand the parsed
selection to delete_pages. -/
def handle_delete_input (userInput : String) (totalPages : Nat) : Option (List Int) :=
  if (validate_page_input userInput totalPages).1 = false then none
  else if totalPages ≤ (parse_page_numbers userInput totalPages).length then none
  else some (parse_page_numbers userInput totalPages)

/-- merge_pdfs (src/utils/pdf_tools.py, lines 69-86): append every page of
every input document in input order. -/
def merge_pdfs {α : Type} (docs : List (List α)) : List α :=
  docs.flatten

/-- The guard of execute_merge (src/handlers/merge.py, lines 150-155): the
merge is refused outright when fewer than two files were collected. -/
def execute_merge {α : Type} (docs : List (List α)) : Option (List α) :=
  if docs.length < 2 then none else some (merge_pdfs docs)

/-- Python range(start, stop, step) for a positive step, as a list. -/
def pyRangeStep (start stop step : Nat) : List Nat :=
  if _h : start < stop ∧ 0 < step then start :: pyRangeStep (start + step) stop step
  else []
termination_by stop - start
decreasing_by omega

/-- split_pdf_by_range (src/utils/pdf_tools.py, lines 112-137): for each
start in range(0, total_pages, pages_per_file) emit the pages from start to
min(start + pages_per_file, total_pages) - 1; a zero pages_per_file raises
ValueError in range(), which the except branch turns into the empty list. -/
def split_pdf_by_range {α : Type} (doc : List α) (pagesPerFile : Nat) : List (List α) :=
  if pagesPerFile = 0 then []
  else
    (pyRangeStep 0 doc.length pagesPerFile).map (fun s =>
      (doc.drop s).take (min (s + pagesPerFile) doc.length - s))

/-- A PDF page for the rotation model: opaque content plus the /Rotate
metadata entry. -/
structure PdfPage where
  content : Nat
  rotation : Int
deriving DecidableEq

/-- Modelled from the spec: the external PDF Library's page-rotate capability
(PyPDF2's page.rotate, not part of this repository); per the spec, the
page's "rotation is incremented by angle degrees (clockwise, modulo 360)
relative to existing rotation". -/
def rotatePage (p : PdfPage) (angle : Int) : PdfPage :=
  { p with rotation := (p.rotation + angle) % 360 }

/-- An element of the pages_to_rotate list of rotate_pages: the handlers mix
integer page indices and the string sentinel for every page. -/
inductive PageTok where
  | int (n : Int)
  | str (s : String)
deriving DecidableEq

/-- Python str(p) for an element of pages_to_rotate. -/
def tokStr : PageTok → String
  | .int n => toString n
  | .str s => s

/-- The sentinel test of rotate_pages (src/utils/pdf_tools.py, line 167):
whether 'all' occurs in [str(p).lower() for p in pages_to_rotate]. -/
def hasAllTok (toks : List PageTok) : Bool :=
  toks.any (fun t => pyLower (tokStr t) == "all")

/-- The membership test of rotate_pages (src/utils/pdf_tools.py, line 167):
Python's (page_num + 1) in pages_to_rotate, where an integer never equals a
string. -/
def pyIntMem (idx : Int) (toks : List PageTok) : Bool :=
  toks.any (fun t =>
    match t with
    | .int m => m == idx
    | .str _ => false)

/-- rotate_pages (src/utils/pdf_tools.py, lines 158-177): a page is rotated
when its 1-based index is in pages_to_rotate or when the list contains the
'all' sentinel; every page is then written out in original order. -/
def rotate_pages (doc : List PdfPage) (pagesToRotate : List PageTok) (angle : Int) :
    List PdfPage :=
  doc.enum.map (fun ip =>
    if pyIntMem ((ip.1 : Int) + 1) pagesToRotate || hasAllTok pagesToRotate then
      rotatePage ip.2 angle
    else ip.2)

/-- Round half to even, as Python's round does on the exact value. -/
def pyRoundHalfEven (q : ℚ) : ℤ :=
  if q - ⌊q⌋ < 1 / 2 then ⌊q⌋
  else if 1 / 2 < q - ⌊q⌋ then ⌊q⌋ + 1
  else if Even ⌊q⌋ then ⌊q⌋ else ⌊q⌋ + 1

/-- Python round(x, 1) on the exact value: round half to even at one decimal
place. -/
def pyRound1 (q : ℚ) : ℚ :=
  (pyRoundHalfEven (q * 10) : ℚ) / 10

/-- The statistics dictionary returned by compress_pdf on success. -/
structure CompressionReport where
  original_size : Nat
  compressed_size : Nat
  reduction : ℚ
deriving DecidableEq

/-- compress_pdf (src/utils/pdf_tools.py, lines 198-247), abstracted over the
external compression library: the byte sizes of the input and output files
are the model's inputs; on the success path the function reports both sizes
and reduction = round((original - compressed) / original * 100, 1); a zero
original size raises ZeroDivisionError, which the except branch turns into
(False, no report). File sizes are natural numbers. -/
def compress_pdf (originalSize compressedSize : Nat) : Bool × Option CompressionReport :=
  if originalSize = 0 then (false, none)
  else
    (true, some
      { original_size := originalSize
        compressed_size := compressedSize
        reduction := pyRound1 (((originalSize : ℚ) - (compressedSize : ℚ)) /
          (originalSize : ℚ) * 100) })

example : pyInt " -12 ".data = some (-12) := by decide
example : pyInt "1_0".data = some 10 := by decide
example : pyInt "_1".data = none := by decide
example : pyInt "".data = none := by decide
example : pyInt "1_".data = none := by decide
example : parse_page_numbers "1-3,2-5" 10 = [1, 2, 3, 4, 5] := by decide
example : parse_page_numbers "5-2" 10 = [] := by decide
example : parse_page_numbers "1,2," 10 = [] := by decide
example : parse_page_numbers " ALL " 3 = [1, 2, 3] := by decide
example : parse_page_numbers "3, 1, 3" 10 = [1, 3] := by decide
example : (validate_page_input "5-2" 10).1 = false := by decide

theorem mem_rangeIncl {a b x : Int} : x ∈ rangeIncl a b ↔ a ≤ x ∧ x ≤ b := by
  unfold rangeIncl
  simp only [List.mem_map, List.mem_range]
  constructor
  · rintro ⟨i, hi, rfl⟩
    omega
  · rintro ⟨h1, h2⟩
    exact ⟨(x - a).toNat, by omega, by omega⟩

theorem mem_ite_rangeIncl {n : Nat} {a b x : Int}
    (h : x ∈ if a ≤ b ∧ 1 ≤ a ∧ b ≤ (n : Int) then rangeIncl a b else []) :
    1 ≤ x ∧ x ≤ (n : Int) := by
  split at h
  · rcases mem_rangeIncl.mp h with ⟨h1, h2⟩
    omega
  · simp at h

theorem collectTokens_bounds (n : Nat) :
    ∀ (parts : List (List Char)) (l : List Int), collectTokens n parts = some l →
      ∀ x ∈ l, 1 ≤ x ∧ x ≤ (n : Int) := by
  intro parts
  induction parts with
  | nil =>
      intro l h x hx
      simp only [collectTokens, Option.some.injEq] at h
      subst h
      simp at hx
  | cons p rest ih =>
      intro l h x hx
      unfold collectTokens at h
      split at h
      · split at h
        · rw [Option.map_eq_some'] at h
          obtain ⟨tl, htl, rfl⟩ := h
          rcases List.mem_append.mp hx with hx' | hx'
          · exact mem_ite_rangeIncl hx'
          · exact ih tl htl x hx'
        · exact absurd h (by simp)
      · split at h
        · rw [Option.map_eq_some'] at h
          obtain ⟨tl, htl, rfl⟩ := h
          rcases List.mem_append.mp hx with hx' | hx'
          · split at hx'
            · rcases List.mem_singleton.mp hx' with rfl
              omega
            · simp at hx'
          · exact ih tl htl x hx'
        · exact absurd h (by simp)

theorem parse_page_numbers_bounds (e : String) (n : Nat) :
    ∀ x ∈ parse_page_numbers e n, 1 ≤ x ∧ x ≤ (n : Int) := by
  intro x hx
  unfold parse_page_numbers at hx
  split at hx
  · unfold oneTo at hx
    simp only [List.mem_map, List.mem_range] at hx
    obtain ⟨i, hi, rfl⟩ := hx
    omega
  · split at hx
    · rename_i pages hpages
      have hmem : x ∈ pages.dedup :=
        ((List.perm_insertionSort (· ≤ ·) pages.dedup).mem_iff).mp hx
      exact collectTokens_bounds n _ pages hpages x (List.mem_dedup.mp hmem)
    · simp at hx

theorem oneTo_sorted (n : Nat) : (oneTo n).Sorted (· < ·) :=
  (List.pairwise_lt_range n).map _ (fun a b h => by omega)

theorem parse_page_numbers_sorted (e : String) (n : Nat) :
    (parse_page_numbers e n).Sorted (· < ·) := by
  unfold parse_page_numbers
  split
  · exact oneTo_sorted n
  · split
    · rename_i pages hpages
      have hnd : (List.insertionSort (· ≤ ·) pages.dedup).Nodup :=
        ((List.perm_insertionSort (· ≤ ·) pages.dedup).nodup_iff).mpr pages.nodup_dedup
      exact (List.sorted_insertionSort (· ≤ ·) pages.dedup).lt_of_le hnd
    · exact List.sorted_nil

theorem parse_page_numbers_nodup (e : String) (n : Nat) :
    (parse_page_numbers e n).Nodup :=
  (parse_page_numbers_sorted e n).imp (fun h => ne_of_lt h)

/-- C2: for every expression and page count, parse_page_numbers returns a
subset of [1, n] that is strictly ascending and duplicate-free; overlapping
ranges are unioned and deduplicated ("1-3,2-5" on 10 pages gives
[1,2,3,4,5]), a reversed range gives the empty list ("5-2" on 10 pages), and
validate_page_input rejects that empty result as invalid. -/
theorem parse_page_numbers_canonical :
    (∀ (e : String) (n : Nat),
        (∀ x ∈ parse_page_numbers e n, 1 ≤ x ∧ x ≤ (n : Int)) ∧
        (parse_page_numbers e n).Sorted (· < ·) ∧ (parse_page_numbers e n).Nodup) ∧
    parse_page_numbers "1-3,2-5" 10 = [1, 2, 3, 4, 5] ∧
    parse_page_numbers "5-2" 10 = [] ∧
    (validate_page_input "5-2" 10).1 = false :=
  ⟨fun e n => ⟨parse_page_numbers_bounds e n, parse_page_numbers_sorted e n,
    parse_page_numbers_nodup e n⟩, by decide, by decide, by decide⟩

/-- C2 witness: instantiating the universal part at "1-3,2-5" with 10 pages
and the member 3. -/
theorem parse_page_numbers_canonical_witness :
    1 ≤ (3 : Int) ∧ (3 : Int) ≤ (10 : Int) :=
  (parse_page_numbers_canonical.1 "1-3,2-5" 10).1 3 (by decide)

theorem collectTokens_bad (n : Nat) :
    ∀ (parts : List (List Char)) (p : List Char), p ∈ parts → tokenBad p = true →
      collectTokens n parts = none := by
  intro parts
  induction parts with
  | nil =>
      intro p hp
      simp at hp
  | cons q rest ih =>
      intro p hp hbad
      rcases List.mem_cons.mp hp with rfl | hp'
      · unfold tokenBad at hbad
        unfold collectTokens
        split at hbad
        · rename_i hc
          rw [if_pos hc]
          cases hA : pyInt (splitFirst '-' (pyStripL p)).1 with
          | none => simp [hA]
          | some a =>
              cases hB : pyInt (splitFirst '-' (pyStripL p)).2 with
              | none => simp [hA, hB]
              | some b => simp [hA, hB] at hbad
        · rename_i hc
          rw [if_neg hc]
          cases hA : pyInt (pyStripL p) with
          | none => simp [hA]
          | some v => simp [hA] at hbad
      · unfold collectTokens
        rw [ih p hp' hbad]
        split
        · split <;> simp
        · split <;> simp

/-- C1 amended: a token that fails integer parsing (for instance the empty
token left by a trailing or leading comma) does not merely lose that token:
the raised ValueError makes parse_page_numbers discard every collected index
and return the empty list for the whole expression. (Only reversed ranges
and out-of-bounds indices are dropped per-token.) -/
theorem parse_page_numbers_bad_token (e : String) (n : Nat)
    (hall : pyStrip (pyLower e) ≠ "all")
    (p : List Char) (hp : p ∈ pySplit ',' e.data) (hbad : tokenBad p = true) :
    parse_page_numbers e n = [] := by
  unfold parse_page_numbers
  rw [if_neg hall, collectTokens_bad n _ p hp hbad]

/-- C1 witness: "1,2," contains the failing empty token, so the whole
expression parses to the empty list. -/
theorem parse_page_numbers_bad_token_witness :
    pyStrip (pyLower "1,2,") ≠ "all" ∧ [] ∈ pySplit ',' "1,2,".data ∧
      tokenBad [] = true ∧ parse_page_numbers "1,2," 10 = [] :=
  ⟨by decide, by decide, by decide,
    parse_page_numbers_bad_token "1,2," 10 (by decide) [] (by decide) (by decide)⟩

/-- C1 counterexample: in "1,2," the only failing token is the empty trailing
one; dropping just it would leave [1, 2], but parse_page_numbers returns the
empty list instead of the indices of the remaining valid tokens. -/
theorem parse_page_numbers_trailing_comma_counterexample :
    parse_page_numbers "1,2," 10 = [] ∧ parse_page_numbers "1,2," 10 ≠ [1, 2] :=
  ⟨by decide, by decide⟩

/-- C3: an expression whose lower().strip() is the keyword "all" parses to
exactly [1..n]; with a zero page count it parses to the empty list, which
validate_page_input reports as invalid. -/
theorem parse_page_numbers_all_keyword (e : String) (n : Nat)
    (h : pyStrip (pyLower e) = "all") :
    parse_page_numbers e n = oneTo n ∧ parse_page_numbers e 0 = [] ∧
      (validate_page_input e 0).1 = false := by
  have h1 : ∀ m : Nat, parse_page_numbers e m = oneTo m := by
    intro m
    unfold parse_page_numbers
    rw [if_pos h]
  have h2 : parse_page_numbers e 0 = [] := h1 0
  refine ⟨h1 n, h2, ?_⟩
  unfold validate_page_input
  split <;> rfl

/-- C3 witness: " ALL " with 4 pages expands to [1, 2, 3, 4]; with 0 pages it
is empty and invalid. -/
theorem parse_page_numbers_all_keyword_witness :
    pyStrip (pyLower " ALL ") = "all" ∧ parse_page_numbers " ALL " 4 = oneTo 4 ∧
      parse_page_numbers " ALL " 0 = [] ∧ (validate_page_input " ALL " 0).1 = false := by
  have h := parse_page_numbers_all_keyword " ALL " 4 (by decide)
  exact ⟨by decide, h.1, h.2.1, h.2.2⟩

theorem coe_eq_oneTo_iff (l : List Int) (n : Nat) :
    (l : Multiset Int) = ((oneTo n : List Int) : Multiset Int) ↔
      l.length = n ∧ l.toFinset = (oneTo n).toFinset := by
  have hone : (oneTo n).Nodup := (oneTo_sorted n).imp (fun h => ne_of_lt h)
  have hlen : (oneTo n).length = n := by
    unfold oneTo
    rw [List.length_map, List.length_range]
  constructor
  · intro h
    have hcard := congrArg Multiset.card h
    simp only [Multiset.coe_card] at hcard
    have hfin := congrArg Multiset.toFinset h
    simp only [List.toFinset_coe] at hfin
    exact ⟨by omega, hfin⟩
  · rintro ⟨h1, h2⟩
    have hcards : l.dedup.length = l.length := by
      rw [← List.card_toFinset, h2, List.card_toFinset,
        List.dedup_eq_self.mpr hone, hlen, h1]
    have hdedup : l.dedup = l := (List.dedup_sublist l).eq_of_length hcards
    have hnd : l.Nodup := List.dedup_eq_self.mp hdedup
    exact Multiset.coe_eq_coe.mpr (List.perm_of_nodup_nodup_toFinset_eq hnd hone h2)

/-- C4: the reorder parser accepts exactly the comma-separated lists of bare
integers whose token count is the page count and whose multiset of values is
exactly 1..page_count, preserving input order; "3,1,2" on 3 pages yields
[3,1,2], while "1,1,2" (duplicate) and "1,2" (wrong count) are rejected. -/
theorem parse_page_order_spec :
    (∀ (s : String) (n : Nat) (l : List Int), tokenInts (pyStrip s) = some l →
        (parse_page_order s n = some l ↔
          (l : Multiset Int) = ((oneTo n : List Int) : Multiset Int))) ∧
    (∀ (s : String) (n : Nat), tokenInts (pyStrip s) = none →
        parse_page_order s n = none) ∧
    parse_page_order "3,1,2" 3 = some [3, 1, 2] ∧
    parse_page_order "1,1,2" 3 = none ∧
    parse_page_order "1,2" 3 = none := by
  refine ⟨?_, ?_, by decide, by decide, by decide⟩
  · intro s n l h
    unfold parse_page_order
    rw [h]
    show (if l.length = n ∧ l.toFinset = (oneTo n).toFinset then some l else none) = some l ↔ _
    constructor
    · intro hsome
      split at hsome
      · rename_i hcond
        exact (coe_eq_oneTo_iff l n).mpr hcond
      · exact absurd hsome (by simp)
    · intro hm
      rw [if_pos ((coe_eq_oneTo_iff l n).mp hm)]
  · intro s n h
    unfold parse_page_order
    rw [h]

/-- C4 witness: the accepting direction applied to "3,1,2" with 3 pages. -/
theorem parse_page_order_spec_witness :
    parse_page_order "3,1,2" 3 = some [3, 1, 2] :=
  (parse_page_order_spec.1 "3,1,2" 3 [3, 1, 2] (by decide)).mpr (by decide)

/-- C6: the merge pipeline refuses to run with fewer than two collected
documents, and with two or more it concatenates them. -/
theorem execute_merge_requires_two {α : Type} (docs : List (List α)) :
    (execute_merge docs = none ↔ docs.length < 2) ∧
    (2 ≤ docs.length → execute_merge docs = some (merge_pdfs docs)) := by
  unfold execute_merge
  constructor
  · split
    · rename_i hc
      simp [hc]
    · rename_i hc
      simp [hc]
  · intro h
    rw [if_neg (by omega)]

/-- C6 witness: one document is refused, two are merged. -/
theorem execute_merge_requires_two_witness :
    execute_merge ([[0]] : List (List Nat)) = none ∧
      execute_merge ([[0], [1]] : List (List Nat)) = some (merge_pdfs [[0], [1]]) :=
  ⟨(execute_merge_requires_two [[0]]).1.mpr (by decide),
    (execute_merge_requires_two [[0], [1]]).2 (by decide)⟩

theorem delete_pages_sublist {α : Type} (doc : List α) (sel : List Int) :
    List.Sublist (delete_pages doc sel) doc := by
  unfold delete_pages
  have h2 :=
    (@List.filter_sublist _ (fun ip => decide (((ip.1 : Int) + 1) ∉ sel)) doc.enum).map
      Prod.snd
  rwa [List.enum_map_snd] at h2

theorem mem_delete_pages {α : Type} (doc : List α) (sel : List Int) (p : α) :
    p ∈ delete_pages doc sel ↔
      ∃ i : Fin doc.length, ((i.1 : Int) + 1) ∉ sel ∧ doc.get i = p := by
  unfold delete_pages
  simp only [List.mem_map, List.mem_filter]
  constructor
  · rintro ⟨⟨i, a⟩, ⟨henum, hq⟩, rfl⟩
    rw [List.mem_enum_iff_getElem?] at henum
    have hlt : i < doc.length := by
      by_contra hge
      rw [List.getElem?_eq_none (by omega)] at henum
      cases henum
    refine ⟨⟨i, hlt⟩, by simpa using hq, ?_⟩
    rw [List.get_eq_getElem]
    rw [List.getElem?_eq_getElem hlt] at henum
    exact Option.some_inj.mp henum
  · rintro ⟨⟨i, hlt⟩, hnot, rfl⟩
    refine ⟨(i, List.get doc ⟨i, hlt⟩), ⟨?_, by simpa using hnot⟩, rfl⟩
    rw [List.mem_enum_iff_getElem?]
    simp [List.get_eq_getElem, List.getElem?_eq_getElem hlt]

theorem countP_zip_fst {α : Type} (q : Nat → Bool) :
    ∀ (xs : List Nat) (ys : List α), ys.length = xs.length →
      List.countP (fun ip => q ip.1) (xs.zip ys) = List.countP q xs := by
  intro xs
  induction xs with
  | nil =>
      intro ys h
      simp
  | cons x xs ih =>
      intro ys h
      cases ys with
      | nil => simp at h
      | cons y ys =>
          simp only [List.zip_cons_cons, List.countP_cons]
          rw [ih ys (by simpa using h)]

theorem countP_add_not {α : Type} (q : α → Bool) (l : List α) :
    List.countP q l + List.countP (fun a => !(q a)) l = l.length := by
  induction l with
  | nil => simp
  | cons a l ih =>
      simp only [List.countP_cons, List.length_cons]
      cases hqa : q a <;> simp [hqa] <;> omega

theorem countP_or_disjoint {α : Type} (p q : α → Bool) (l : List α)
    (h : ∀ a ∈ l, ¬(p a = true ∧ q a = true)) :
    List.countP (fun a => p a || q a) l = List.countP p l + List.countP q l := by
  induction l with
  | nil => simp
  | cons a l ih =>
      simp only [List.countP_cons]
      rw [ih (fun b hb => h b (List.mem_cons_of_mem a hb))]
      cases hp : p a <;> cases hq : q a
      · simp [hp, hq]
      · simp [hp, hq]
        omega
      · simp [hp, hq]
        omega
      · exact absurd ⟨hp, hq⟩ (h a (List.mem_cons_self a l))

theorem countP_range_eq_one {x : Int} {n : Nat} (h1 : 1 ≤ x) (h2 : x ≤ (n : Int)) :
    List.countP (fun i : Nat => decide (((i : Int) + 1) = x)) (List.range n) = 1 := by
  have hcg : List.countP (fun i : Nat => decide (((i : Int) + 1) = x)) (List.range n)
      = List.countP (fun i : Nat => i == (x - 1).toNat) (List.range n) :=
    List.countP_congr (fun a _ => by
      simp only [decide_eq_true_eq, beq_iff_eq]
      omega)
  rw [hcg, ← List.count_eq_countP]
  exact List.count_eq_one_of_mem (List.nodup_range n) (List.mem_range.mpr (by omega))

theorem countP_range_mem (sel : List Int) (n : Nat) (hnd : sel.Nodup)
    (hb : ∀ x ∈ sel, 1 ≤ x ∧ x ≤ (n : Int)) :
    List.countP (fun i : Nat => decide (((i : Int) + 1) ∈ sel)) (List.range n)
      = sel.length := by
  induction sel with
  | nil => simp
  | cons x sel ih =>
      have hx := hb x (List.mem_cons_self x sel)
      have hcg : List.countP (fun i : Nat => decide (((i : Int) + 1) ∈ x :: sel))
            (List.range n)
          = List.countP (fun i : Nat =>
              (decide (((i : Int) + 1) = x) || decide (((i : Int) + 1) ∈ sel)))
            (List.range n) :=
        List.countP_congr (fun a _ => by simp [List.mem_cons])
      have hdisj : ∀ a ∈ List.range n,
          ¬((decide (((a : Int) + 1) = x)) = true ∧ (decide (((a : Int) + 1) ∈ sel)) = true) := by
        intro a _ hc
        rcases hc with ⟨ha1, ha2⟩
        rw [decide_eq_true_eq] at ha1 ha2
        exact (List.nodup_cons.mp hnd).1 (ha1 ▸ ha2)
      rw [hcg, countP_or_disjoint _ _ _ hdisj, countP_range_eq_one hx.1 hx.2,
        ih (List.Nodup.of_cons hnd) (fun y hy => hb y (List.mem_cons_of_mem x hy)),
        List.length_cons]
      omega

theorem delete_pages_length {α : Type} (doc : List α) (sel : List Int)
    (hnd : sel.Nodup) (hb : ∀ x ∈ sel, 1 ≤ x ∧ x ≤ (doc.length : Int)) :
    (delete_pages doc sel).length = doc.length - sel.length := by
  unfold delete_pages
  rw [List.length_map, ← List.countP_eq_length_filter, List.enum_eq_zip_range,
    countP_zip_fst (fun i : Nat => decide (((i : Int) + 1) ∉ sel))
      (List.range doc.length) doc (by simp)]
  have hnot : List.countP (fun i : Nat => decide (((i : Int) + 1) ∉ sel))
        (List.range doc.length)
      = List.countP (fun i : Nat => !(decide (((i : Int) + 1) ∈ sel)))
        (List.range doc.length) :=
    List.countP_congr (fun a _ => by simp)
  rw [hnot]
  have hsum := countP_add_not (fun i : Nat => decide (((i : Int) + 1) ∈ sel))
    (List.range doc.length)
  have hmem := countP_range_mem sel doc.length hnd hb
  rw [List.length_range] at hsum
  omega

/-- C5: when handle_delete_input accepts a selection for an n-page document,
delete_pages keeps, in original relative order (a sublist), exactly the pages
whose 1-based index is not selected, its output has n minus the selection
size pages, and — because the handler rejects any selection covering all
pages — the output is never the empty document. -/
theorem delete_pages_spec {α : Type} (userInput : String) (n : Nat) (sel : List Int)
    (hsel : handle_delete_input userInput n = some sel) (doc : List α)
    (hdoc : doc.length = n) :
    List.Sublist (delete_pages doc sel) doc ∧
    (∀ p : α, p ∈ delete_pages doc sel ↔
        ∃ i : Fin doc.length, ((i.1 : Int) + 1) ∉ sel ∧ doc.get i = p) ∧
    (delete_pages doc sel).length = n - sel.length ∧
    delete_pages doc sel ≠ [] := by
  subst hdoc
  unfold handle_delete_input at hsel
  split at hsel
  · cases hsel
  · split at hsel
    · cases hsel
    · rename_i hval hlen
      have hparse : parse_page_numbers userInput doc.length = sel := Option.some_inj.mp hsel
      have hnd : sel.Nodup := hparse ▸ parse_page_numbers_nodup userInput doc.length
      have hb : ∀ x ∈ sel, 1 ≤ x ∧ x ≤ (doc.length : Int) :=
        hparse ▸ parse_page_numbers_bounds userInput doc.length
      have hlen' : sel.length < doc.length := by
        rw [← hparse]
        omega
      have hlength := delete_pages_length doc sel hnd hb
      refine ⟨delete_pages_sublist doc sel, fun p => mem_delete_pages doc sel p, hlength, ?_⟩
      apply List.ne_nil_of_length_pos
      omega

/-- C5 witness: deleting page 2 from a three-page document. -/
theorem delete_pages_spec_witness :
    List.Sublist (delete_pages ([10, 20, 30] : List Nat) [2]) [10, 20, 30] ∧
    (∀ p : Nat, p ∈ delete_pages ([10, 20, 30] : List Nat) [2] ↔
        ∃ i : Fin ([10, 20, 30] : List Nat).length,
          ((i.1 : Int) + 1) ∉ ([2] : List Int) ∧ List.get [10, 20, 30] i = p) ∧
    (delete_pages ([10, 20, 30] : List Nat) [2]).length = 3 - ([2] : List Int).length ∧
    delete_pages ([10, 20, 30] : List Nat) [2] ≠ [] :=
  delete_pages_spec "2" 3 [2] (by decide) [10, 20, 30] (by decide)

theorem pyRangeStep_unfold (s n k : Nat) :
    pyRangeStep s n k = if s < n ∧ 0 < k then s :: pyRangeStep (s + k) n k else [] := by
  by_cases h : s < n ∧ 0 < k
  · rw [pyRangeStep, dif_pos h, if_pos h]
  · rw [pyRangeStep, dif_neg h, if_neg h]

theorem pyRangeStep_shift (k : Nat) (hk : 0 < k) :
    ∀ (m s n : Nat), n - s ≤ m →
      pyRangeStep (s + k) n k = (pyRangeStep s (n - k) k).map (· + k) := by
  intro m
  induction m with
  | zero =>
      intro s n hm
      have h1 : ¬(s + k < n ∧ 0 < k) := by omega
      have h2 : ¬(s < n - k ∧ 0 < k) := by omega
      rw [pyRangeStep_unfold (s + k) n k, if_neg h1, pyRangeStep_unfold s (n - k) k,
        if_neg h2]
      rfl
  | succ m ih =>
      intro s n hm
      by_cases h : s + k < n
      · rw [pyRangeStep_unfold (s + k) n k, if_pos ⟨h, hk⟩,
          pyRangeStep_unfold s (n - k) k, if_pos (And.intro (by omega) hk),
          List.map_cons, ih (s + k) n (by omega)]
      · have h1 : ¬(s + k < n ∧ 0 < k) := by omega
        have h2 : ¬(s < n - k ∧ 0 < k) := by omega
        rw [pyRangeStep_unfold (s + k) n k, if_neg h1, pyRangeStep_unfold s (n - k) k,
          if_neg h2]
        rfl

theorem split_pdf_by_range_cons {α : Type} (doc : List α) (k : Nat) (hk : 0 < k) :
    split_pdf_by_range doc k =
      if doc.length = 0 then [] else doc.take k :: split_pdf_by_range (doc.drop k) k := by
  have htake : ∀ m : Nat, doc.take (min m doc.length) = doc.take m := by
    intro m
    rcases le_total m doc.length with h | h
    · rw [min_eq_left h]
    · rw [min_eq_right h, List.take_length, List.take_of_length_le h]
  by_cases hd : doc.length = 0
  · rw [if_pos hd]
    unfold split_pdf_by_range
    rw [if_neg (by omega), pyRangeStep_unfold, if_neg (by omega)]
    rfl
  · rw [if_neg hd]
    conv_lhs => rw [split_pdf_by_range]
    conv_rhs => rw [split_pdf_by_range]
    rw [if_neg (by omega), if_neg (by omega), pyRangeStep_unfold,
      if_pos (And.intro (by omega) hk)]
    rw [List.map_cons]
    have hsh : pyRangeStep (0 + k) doc.length k
        = (pyRangeStep 0 (doc.length - k) k).map (· + k) :=
      pyRangeStep_shift k hk doc.length 0 doc.length (by omega)
    rw [hsh, List.map_map]
    have hhead : (doc.drop 0).take (min (0 + k) doc.length - 0) = doc.take k := by
      rw [List.drop_zero, Nat.zero_add, Nat.sub_zero, htake k]
    rw [hhead]
    have htail : ∀ s : Nat,
        ((fun t => (doc.drop t).take (min (t + k) doc.length - t)) ∘ (· + k)) s
          = (fun t => ((doc.drop k).drop t).take (min (t + k) (doc.drop k).length - t)) s := by
      intro s
      show (doc.drop (s + k)).take (min (s + k + k) doc.length - (s + k))
        = ((doc.drop k).drop s).take (min (s + k) (doc.drop k).length - s)
      rw [List.drop_drop, List.length_drop]
      have harg : k + s = s + k := by omega
      rw [harg]
      congr 1
      omega
    rw [List.map_congr_left (fun s _ => htail s), List.length_drop]

theorem split_pdf_by_range_props {α : Type} (k : Nat) (hk : 0 < k) (doc : List α) :
    (split_pdf_by_range doc k).length = (doc.length + k - 1) / k ∧
    (split_pdf_by_range doc k).flatten = doc ∧
    (∀ c ∈ split_pdf_by_range doc k, c ≠ [] ∧ c.length ≤ k) ∧
    (∀ i : Nat, i + 1 < (split_pdf_by_range doc k).length →
      ((split_pdf_by_range doc k).get? i).map List.length = some k) := by
  suffices H : ∀ (n : Nat) (doc : List α), doc.length = n →
      (split_pdf_by_range doc k).length = (doc.length + k - 1) / k ∧
      (split_pdf_by_range doc k).flatten = doc ∧
      (∀ c ∈ split_pdf_by_range doc k, c ≠ [] ∧ c.length ≤ k) ∧
      (∀ i : Nat, i + 1 < (split_pdf_by_range doc k).length →
        ((split_pdf_by_range doc k).get? i).map List.length = some k) by
    exact H doc.length doc rfl
  intro n
  induction n using Nat.strong_induction_on with
  | _ n ih =>
      intro doc hlen
      rw [split_pdf_by_range_cons doc k hk]
      by_cases hd : doc.length = 0
      · obtain rfl : doc = [] := List.length_eq_zero.mp hd
        rw [if_pos hd]
        refine ⟨?_, rfl, by simp, ?_⟩
        · simp only [List.length_nil]
          rw [Nat.div_eq_of_lt (by omega)]
        · intro i hi
          simp at hi
      · rw [if_neg hd]
        have hpos : 0 < doc.length := by omega
        have hd' : doc ≠ [] := by
          intro h
          rw [h] at hd
          simp at hd
        have hlt : (doc.drop k).length < n := by
          rw [List.length_drop]
          omega
        obtain ⟨ih1, ih2, ih3, ih4⟩ := ih (doc.drop k).length (by omega) (doc.drop k) rfl
        have hdroplen : (doc.drop k).length = doc.length - k := List.length_drop k doc
        refine ⟨?_, ?_, ?_, ?_⟩
        · rw [List.length_cons, ih1, hdroplen]
          rcases le_or_lt doc.length k with hc | hc
          · have h0 : doc.length - k = 0 := by omega
            rw [h0]
            have hz : (0 + k - 1) / k = 0 :=
              Nat.div_eq_of_lt_le (by omega) (by omega)
            rw [hz]
            have hone : (doc.length + k - 1) / k = 1 :=
              Nat.div_eq_of_lt_le (by omega) (by omega)
            omega
          · have hrw : doc.length - k + k - 1 = doc.length - 1 := by omega
            rw [hrw]
            have hrw2 : doc.length + k - 1 = (doc.length - 1) + k := by omega
            rw [hrw2, Nat.add_div_right _ hk]
        · rw [List.flatten_cons, ih2, List.take_append_drop]
        · intro c hc
          rcases List.mem_cons.mp hc with rfl | hc'
          · constructor
            · rw [Ne, List.take_eq_nil_iff]
              push_neg
              exact ⟨by omega, hd'⟩
            · rw [List.length_take]
              exact min_le_left k doc.length
          · exact ih3 c hc'
        · intro i hi
          cases i with
          | zero =>
              rw [List.get?_cons_zero]
              rw [List.length_cons] at hi
              have hne : split_pdf_by_range (doc.drop k) k ≠ [] := by
                intro he
                rw [he] at hi
                simp at hi
              have hkd : ¬((doc.drop k).length = 0) := by
                intro he
                rw [split_pdf_by_range_cons _ k hk, if_pos he] at hne
                exact hne rfl
              have hklt : k < doc.length := by
                rw [List.length_drop] at hkd
                omega
              simp only [Option.map_some']
              rw [List.length_take]
              congr 1
              omega
          | succ i =>
              rw [List.get?_cons_succ]
              rw [List.length_cons] at hi
              exact ih4 i (by omega)

/-- C7: for chunk size k >= 1, split_pdf_by_range cuts the document into
ceil(page_count / k) consecutive chunks that concatenate back to the
document, every chunk nonempty with at most k pages and every chunk before
the last with exactly k pages; a 7-page document with chunk size 3 gives
page counts [3, 3, 1]. -/
theorem split_pdf_by_range_chunks :
    (∀ (α : Type) (doc : List α) (k : Nat), 1 ≤ k →
        (split_pdf_by_range doc k).length = (doc.length + k - 1) / k ∧
        (split_pdf_by_range doc k).flatten = doc ∧
        (∀ c ∈ split_pdf_by_range doc k, c ≠ [] ∧ c.length ≤ k) ∧
        (∀ i : Nat, i + 1 < (split_pdf_by_range doc k).length →
          ((split_pdf_by_range doc k).get? i).map List.length = some k)) ∧
    (split_pdf_by_range ([0, 1, 2, 3, 4, 5, 6] : List Nat) 3).map List.length = [3, 3, 1] := by
  refine ⟨fun α doc k hk => split_pdf_by_range_props k hk doc, ?_⟩
  simp [split_pdf_by_range_cons]

/-- C7 witness: chunks of one page concatenate back to a two-page document. -/
theorem split_pdf_by_range_chunks_witness :
    (split_pdf_by_range ([0, 1] : List Nat) 1).flatten = [0, 1] :=
  (split_pdf_by_range_chunks.1 Nat [0, 1] 1 (by decide)).2.1

theorem rotate_pages_length (doc : List PdfPage) (toks : List PageTok) (angle : Int) :
    (rotate_pages doc toks angle).length = doc.length := by
  unfold rotate_pages
  rw [List.length_map, List.enum_length]

theorem rotate_pages_getElem? (doc : List PdfPage) (toks : List PageTok) (angle : Int)
    (i : Nat) :
    (rotate_pages doc toks angle)[i]?
      = (doc[i]?).map (fun p =>
          if pyIntMem ((i : Int) + 1) toks || hasAllTok toks then rotatePage p angle
          else p) := by
  unfold rotate_pages
  rw [List.getElem?_map, List.getElem?_enum]
  cases h : doc[i]? <;> simp

/-- C8: a page whose index is selected gets its rotation incremented by the
angle modulo 360 (content unchanged), a page outside the selection is copied
unchanged, and rotating every page by 90 degrees and then every page of the
result by 270 degrees restores every page of a document whose rotations are
normalized to [0, 360). -/
theorem rotate_pages_spec :
    (∀ (doc : List PdfPage) (toks : List PageTok) (angle : Int) (i : Nat),
        ((pyIntMem ((i : Int) + 1) toks || hasAllTok toks) = true →
          (rotate_pages doc toks angle)[i]? =
            (doc[i]?).map (fun p => { p with rotation := (p.rotation + angle) % 360 })) ∧
        ((pyIntMem ((i : Int) + 1) toks || hasAllTok toks) = false →
          (rotate_pages doc toks angle)[i]? = doc[i]?)) ∧
    (∀ (doc : List PdfPage) (t1 t2 : List PageTok),
        (∀ i : Nat, i < doc.length →
          (pyIntMem ((i : Int) + 1) t1 || hasAllTok t1) = true) →
        (∀ i : Nat, i < doc.length →
          (pyIntMem ((i : Int) + 1) t2 || hasAllTok t2) = true) →
        (∀ p ∈ doc, 0 ≤ p.rotation ∧ p.rotation < 360) →
        rotate_pages (rotate_pages doc t1 90) t2 270 = doc) := by
  constructor
  · intro doc toks angle i
    constructor
    · intro hsel
      rw [rotate_pages_getElem?]
      cases h : doc[i]? with
      | none => rfl
      | some p =>
          simp only [Option.map_some']
          rw [if_pos hsel]
          rfl
    · intro hsel
      rw [rotate_pages_getElem?]
      cases h : doc[i]? with
      | none => rfl
      | some p =>
          simp only [Option.map_some']
          rw [if_neg (by simp [hsel])]
  · intro doc t1 t2 h1 h2 hrot
    apply List.ext_getElem?
    intro i
    rw [rotate_pages_getElem?, rotate_pages_getElem?, Option.map_map]
    cases h : doc[i]? with
    | none => rfl
    | some p =>
        have hi : i < doc.length := by
          rcases List.getElem?_eq_some.mp h with ⟨hlt, _⟩
          exact hlt
        have hp : p ∈ doc := by
          rcases List.getElem?_eq_some.mp h with ⟨hlt, he⟩
          exact he ▸ List.getElem_mem hlt
        simp only [Option.map_some', Function.comp_apply]
        rw [if_pos (h1 i hi), if_pos (h2 i hi)]
        obtain ⟨c, r⟩ := p
        have hb : 0 ≤ r ∧ r < 360 := hrot ⟨c, r⟩ hp
        simp only [rotatePage, Option.some.injEq, PdfPage.mk.injEq]
        exact ⟨trivial, by omega⟩

/-- C8 witness: a two-page document with the 'all' selection, rotated by 90
and then by 270, is restored. -/
theorem rotate_pages_spec_witness :
    rotate_pages (rotate_pages [⟨0, 0⟩, ⟨1, 90⟩] [PageTok.str "all"] 90)
        [PageTok.str "all"] 270
      = [⟨0, 0⟩, ⟨1, 90⟩] :=
  rotate_pages_spec.2 [⟨0, 0⟩, ⟨1, 90⟩] [PageTok.str "all"] [PageTok.str "all"]
    (by decide) (by decide) (by decide)

/-- C10: when the pages_to_rotate list contains any element whose lowercased
string form is "all", every page of the document is rotated by the angle,
regardless of the integer indices in the list. -/
theorem rotate_pages_all_sentinel (doc : List PdfPage) (toks : List PageTok) (angle : Int)
    (h : hasAllTok toks = true) :
    rotate_pages doc toks angle = doc.map (fun p => rotatePage p angle) := by
  apply List.ext_getElem?
  intro i
  rw [rotate_pages_getElem?, List.getElem?_map]
  cases hd : doc[i]? with
  | none => rfl
  | some p =>
      simp only [Option.map_some']
      rw [if_pos (by rw [h, Bool.or_true])]

/-- C10 witness: the mixed list containing the string "ALL" and the integer 7
rotates the single page of a one-page document even though index 1 is not in
the list. -/
theorem rotate_pages_all_sentinel_witness :
    rotate_pages [⟨5, 0⟩] [PageTok.str "ALL", PageTok.int 7] 90
      = List.map (fun p => rotatePage p 90) [⟨5, 0⟩] :=
  rotate_pages_all_sentinel [⟨5, 0⟩] [PageTok.str "ALL", PageTok.int 7] 90 (by decide)

theorem pyRoundHalfEven_le_ceil (q : ℚ) : pyRoundHalfEven q ≤ ⌈q⌉ := by
  unfold pyRoundHalfEven
  have hfc : ⌊q⌋ ≤ ⌈q⌉ := Int.floor_le_ceil q
  by_cases hA : q - ⌊q⌋ < 1 / 2
  · rw [if_pos hA]
    exact hfc
  · rw [if_neg hA]
    have hge : 1 / 2 ≤ q - ⌊q⌋ := le_of_not_lt hA
    have hlt : (⌊q⌋ : ℚ) < q := by linarith
    have h4 : ⌊q⌋ < ⌈q⌉ := Int.lt_ceil.mpr hlt
    by_cases hB : 1 / 2 < q - ⌊q⌋
    · rw [if_pos hB]
      omega
    · rw [if_neg hB]
      by_cases hC : Even ⌊q⌋
      · rw [if_pos hC]
        exact hfc
      · rw [if_neg hC]
        omega

theorem pyRound1_le_int (q : ℚ) (m : Int) (h : q ≤ (m : ℚ)) : pyRound1 q ≤ (m : ℚ) := by
  unfold pyRound1
  have h1 : pyRoundHalfEven (q * 10) ≤ ⌈q * 10⌉ := pyRoundHalfEven_le_ceil _
  have h2 : ⌈q * 10⌉ ≤ 10 * m := Int.ceil_le.mpr (by push_cast; linarith)
  rw [div_le_iff₀ (by norm_num)]
  have h3 : (pyRoundHalfEven (q * 10) : ℚ) ≤ ((10 * m : Int) : ℚ) := by
    exact_mod_cast le_trans h1 h2
  push_cast at h3
  linarith

/-- C9: with a positive original size, compress_pdf succeeds and reports
reduction = round((original - compressed) / original * 100, 1); the reduction
never exceeds 100, it is zero or negative whenever the compressed size is at
least the original size (still a success), and the compressed size is
nonnegative. -/
theorem compress_pdf_report (o c : Nat) (ho : 0 < o) :
    compress_pdf o c
      = (true, some
          { original_size := o
            compressed_size := c
            reduction := pyRound1 (((o : ℚ) - (c : ℚ)) / (o : ℚ) * 100) }) ∧
    pyRound1 (((o : ℚ) - (c : ℚ)) / (o : ℚ) * 100) ≤ 100 ∧
    (o ≤ c → pyRound1 (((o : ℚ) - (c : ℚ)) / (o : ℚ) * 100) ≤ 0) ∧
    (0 : ℚ) ≤ (c : ℚ) := by
  have hoQ : (0 : ℚ) < (o : ℚ) := by exact_mod_cast ho
  have hcQ : (0 : ℚ) ≤ (c : ℚ) := by positivity
  refine ⟨?_, ?_, ?_, hcQ⟩
  · unfold compress_pdf
    rw [if_neg (by omega)]
  · have hle : ((o : ℚ) - (c : ℚ)) / (o : ℚ) * 100 ≤ ((100 : Int) : ℚ) := by
      rw [div_mul_eq_mul_div, div_le_iff₀ hoQ]
      push_cast
      linarith
    have := pyRound1_le_int _ 100 hle
    exact_mod_cast this
  · intro hco
    have hnum : (o : ℚ) - (c : ℚ) ≤ 0 := by
      have : (o : ℚ) ≤ (c : ℚ) := by exact_mod_cast hco
      linarith
    have h1 : ((o : ℚ) - (c : ℚ)) / (o : ℚ) ≤ 0 :=
      div_nonpos_of_nonpos_of_nonneg hnum (le_of_lt hoQ)
    have hle : ((o : ℚ) - (c : ℚ)) / (o : ℚ) * 100 ≤ ((0 : Int) : ℚ) := by
      push_cast
      linarith
    have := pyRound1_le_int _ 0 hle
    exact_mod_cast this

/-- C9 witness: compressing 1000 bytes to 900 succeeds with the reported
reduction formula, which is at most 100, and a nonnegative compressed size. -/
theorem compress_pdf_report_witness :
    compress_pdf 1000 900
      = (true, some
          { original_size := 1000
            compressed_size := 900
            reduction := pyRound1 (((1000 : ℚ) - (900 : ℚ)) / (1000 : ℚ) * 100) }) ∧
    pyRound1 (((1000 : ℚ) - (900 : ℚ)) / (1000 : ℚ) * 100) ≤ 100 ∧
    (1000 ≤ 900 → pyRound1 (((1000 : ℚ) - (900 : ℚ)) / (1000 : ℚ) * 100) ≤ 0) ∧
    (0 : ℚ) ≤ ((900 : Nat) : ℚ) :=
  compress_pdf_report 1000 900 (by decide)
